import Mathlib

/-!
Verification of the Call Break engine in `src/script.js`.

The source file contains two variants of the game code, separated by a
document marker: the first (referred to here with suffix `A`) resolves
tricks with trump awareness and its `Deck.deal` clears hands before
dealing; the second (suffix `B`) resolves tricks by leading suit only,
reseeds `dealerIndex` from the trick winner, and its `Deck.deal` does not
clear hands (its `startRound` clears them instead).

JavaScript specifics of the embedding:
* `Array.prototype.pop` on the deck removes the last element; with an
  empty array it returns `undefined`, which we model with `Option`
  (`getLast?` / `dropLast`); pushing the result of an empty pop is
  modelled as pushing nothing (`Option.toList`), a case none of the
  theorems' executions reach because a full 52-card deck is dealt.
* `Array.prototype.sort` is stable and the AI takes element `[0]` of the
  sorted candidates, i.e. the first candidate of maximal (resp. minimal)
  value in hand order; we model that selection directly.
* `filter(c => c !== chosen)` compares object references; hands produced
  by a deal contain no duplicate card values, so value equality agrees.
* `Math.random`-driven shuffling and trump selection are modelled by
  passing the shuffled deck (resp. the drawn trump) as a parameter.
-/

/-- The four suits `'♠','♥','♦','♣'` of `script.js`. -/
inductive Suit
  | spade
  | heart
  | diamond
  | club
deriving DecidableEq

/-- The thirteen rank strings `'2'..'10','J','Q','K','A'`. -/
inductive Rank
  | r2 | r3 | r4 | r5 | r6 | r7 | r8 | r9 | r10 | J | Q | K | A
deriving DecidableEq

/-- Source `class Card { suit; rank }`. -/
structure Card where
  suit : Suit
  rank : Rank
deriving DecidableEq

/-- Source getter `Card.value`: the order table `{'2':2, …, 'J':11,'Q':12,'K':13,'A':14}`. -/
def Card.value (c : Card) : Nat :=
  match c.rank with
  | .r2 => 2 | .r3 => 3 | .r4 => 4 | .r5 => 5 | .r6 => 6 | .r7 => 7
  | .r8 => 8 | .r9 => 9 | .r10 => 10 | .J => 11 | .Q => 12 | .K => 13 | .A => 14

/-- Suit iteration order `['♠','♥','♦','♣']` of the deck constructor. -/
def allSuits : List Suit := [.spade, .heart, .diamond, .club]

/-- Rank iteration order `['2',…,'A']` of the deck constructor. -/
def allRanks : List Rank :=
  [.r2, .r3, .r4, .r5, .r6, .r7, .r8, .r9, .r10, .J, .Q, .K, .A]

/-- The 52-card deck built by `new Deck()`: for each suit, all ranks. -/
def fullDeck : List Card :=
  (allSuits.map (fun s => allRanks.map (fun r => Card.mk s r))).flatten

/-- Source `class Player { id; isHuman; hand; bid; tricks; score }`. -/
structure Player where
  id : Nat
  isHuman : Bool
  hand : List Card
  bid : Nat
  tricks : Nat
  score : Int
deriving DecidableEq

/-- One pass of `players.forEach(p => p.hand.push(this.cards.pop()))`:
each player in order pops the deck's last card into its hand. -/
def dealOnce : List Player → List Card → List Player × List Card
  | [], cs => ([], cs)
  | p :: ps, cs =>
      let rest := dealOnce ps cs.dropLast
      ({ p with hand := p.hand ++ cs.getLast?.toList } :: rest.1, rest.2)

/-- The `for (let i = 0; i < 13; i++)` loop of `Deck.deal`, generalised
over the iteration count. -/
def dealLoop : Nat → List Player → List Card → List Player × List Card
  | 0, ps, cs => (ps, cs)
  | n + 1, ps, cs =>
      let st := dealOnce ps cs
      dealLoop n st.1 st.2

/-- Variant-A `Deck.deal(players)`: `players.forEach(p => p.hand = [])`
then 13 rounds of pops.  The shuffled card order is the parameter `cs`. -/
def dealA (ps : List Player) (cs : List Card) : List Player × List Card :=
  dealLoop 13 (ps.map fun p => { p with hand := [] }) cs

/-- Variant-B `Deck.deal(players)`: 13 rounds of pops, without clearing
hands (variant B's `startRound` clears them before calling `deal`). -/
def dealB (ps : List Player) (cs : List Card) : List Player × List Card :=
  dealLoop 13 ps cs

/-- The `AI_POINT_WEIGHTS` lookup inside the `reduce` of `computeBid`:
Ace 4, King 3, Queen 2, Jack 1, other ranks 0. -/
def hcpReduce (hand : List Card) : Nat :=
  hand.foldl
    (fun sum c =>
      if c.rank = Rank.A then sum + 4
      else if c.rank = Rank.K then sum + 3
      else if c.rank = Rank.Q then sum + 2
      else if c.rank = Rank.J then sum + 1
      else sum)
    0

/-- The `suitCounts` object built by
`hand.reduce((m,c) => { m[c.suit] = (m[c.suit] || 0) + 1; return m; }, {})`,
modelled as a total function with default 0 (the `|| 0`).  `Object.values`
only lists suits that occur in the hand, but a suit with count 0 would
contribute `Math.max(0, 0 - 4) = 0` to the bonus anyway, so summing over
all four suits below is equivalent. -/
def suitCounts (hand : List Card) : Suit → Nat :=
  hand.foldl (fun m c => fun s => if s = c.suit then m s + 1 else m s) (fun _ => 0)

/-- Source `lengthBonus = Object.values(suitCounts).reduce((b,cnt) => b + Math.max(0, cnt-4), 0)`.
`Math.max(0, cnt - 4)` on a non-negative count equals truncated
subtraction on `Nat`. -/
def lengthBonus (hand : List Card) : Nat :=
  allSuits.foldl (fun b s => b + (suitCounts hand s - 4)) 0

/-- Method `Player.computeBid` (identical in both variants): HCP baseline,
plus the length bonus when `AI_ADVANCED_HEURISTIC` is set, capped by
`Math.min(13, …)`. -/
def computeBid (advanced : Bool) (hand : List Card) : Nat :=
  let hcp := hcpReduce hand
  if !advanced then
    min 13 (hcp / 2)
  else
    min 13 (hcp / 2 + lengthBonus hand)

/-- Models `candidates.sort((a,b) => b.value - a.value)` followed by
`candidates[0]`: JS sort is stable, so this is the first candidate of
maximal value in candidate order (`none` when candidates is empty,
modelling `undefined`). -/
def pickHigh : List Card → Option Card
  | [] => none
  | c :: rest => some (rest.foldl (fun best x => if x.value > best.value then x else best) c)

/-- Models `candidates.sort((a,b) => a.value - b.value)` followed by
`candidates[0]`: the first candidate of minimal value in candidate order. -/
def pickLow : List Card → Option Card
  | [] => none
  | c :: rest => some (rest.foldl (fun best x => if x.value < best.value then x else best) c)

/-- Variant-A `Player.playCard(leadSuit, trumpSuit)`.  Note the JS slip
faithfully kept: `hand.filter(c => c.suit === trumpSuit) || hand`
never falls back to `hand`, because an empty array is truthy, so with
neither lead-suit nor trump cards the candidate list stays empty and
`candidates[0]` is `undefined` (`none`); `hand.filter(c => c !== undefined)`
then leaves the hand unchanged. -/
def Player.playCardA (p : Player) (leadSuit : Option Suit) (trumpSuit : Suit) :
    Option Card × Player :=
  let hand := p.hand
  let cand0 := hand.filter (fun c => some c.suit = leadSuit)
  let candidates := if cand0.isEmpty then hand.filter (fun c => c.suit = trumpSuit) else cand0
  let chosen := if p.tricks < p.bid then pickHigh candidates else pickLow candidates
  (chosen, { p with hand := hand.filter (fun c => ¬ some c = chosen) })

/-- Variant-B `Player.playCard(leadingSuit)`: candidates are the
lead-suit cards, falling back to the whole hand when there are none
(`if (candidates.length === 0) candidates = this.hand`). -/
def Player.playCardB (p : Player) (leadingSuit : Option Suit) : Option Card × Player :=
  let cand0 := p.hand.filter (fun c => some c.suit = leadingSuit)
  let candidates := if cand0.length = 0 then p.hand else cand0
  let chosen := if p.tricks < p.bid then pickHigh candidates else pickLow candidates
  (chosen, { p with hand := p.hand.filter (fun c => ¬ some c = chosen) })

/-- One `{pid, card}` entry of `this.table` / `this.tableCards`. -/
structure Play where
  pid : Nat
  card : Card
deriving DecidableEq

/-- The fields of the `Game` object that the round/trick engine reads
and writes (UI elements and the persistence blob are external). -/
structure GameSt where
  players : List Player
  dealerIndex : Nat
  round : Nat
  trumpSuit : Suit
  leadingSuit : Option Suit
  playOrder : List Nat
  table : List Play
deriving DecidableEq

/-- Method `Game.determineTurnOrder`: `for (i = 1; i <= 4; i++) playOrder.push((dealerIndex + i) % 4)`. -/
def determineTurnOrder (g : GameSt) : GameSt :=
  { g with playOrder := (List.range 4).map (fun i => (g.dealerIndex + (i + 1)) % 4) }

/-- Methods `Game.placeCard` / `Game.placeOnTable`: the first card placed fixes
the leading suit (`if (!this.leadingSuit) this.leadingSuit = card.suit`),
then the play is pushed onto the table. -/
def placeCard (g : GameSt) (pid : Nat) (card : Card) : GameSt :=
  let g' := if g.leadingSuit = none then { g with leadingSuit := some card.suit } else g
  { g' with table := g'.table ++ [⟨pid, card⟩] }

/-- The trick-reset part of `Game.playTrick`: empty table, no leading suit. -/
def playTrickReset (g : GameSt) : GameSt :=
  { g with table := [], leadingSuit := none }

/-- The body of variant-A `resolveTrick`'s `forEach`: replace the running
`winning` play by `t` when `t` is trump and `winning` is not, or `t`
follows the leading suit while `winning` does not and `t` is not trump,
or both have the same suit and `t` has the higher value. -/
def trickStepA (trump : Suit) (leading : Option Suit) (winning t : Play) : Play :=
  let isTrump := t.card.suit = trump
  let winIsTrump := winning.card.suit = trump
  if (isTrump ∧ ¬winIsTrump) ∨
     (some t.card.suit = leading ∧ ¬ some winning.card.suit = leading ∧ ¬isTrump) ∨
     (t.card.suit = winning.card.suit ∧ t.card.value > winning.card.value)
  then t else winning

/-- Variant-A `resolveTrick`'s winner computation: start from `table[0]`
(`undefined`, i.e. `none`, on an empty table) and run the `forEach` over
the whole table, including entry 0 itself. -/
def winnerA (trump : Suit) (leading : Option Suit) (table : List Play) : Option Play :=
  match table with
  | [] => none
  | w0 :: _ => some (table.foldl (trickStepA trump leading) w0)

/-- Variant-B `resolveTrick`'s winner computation:
`tableCards.filter(t => t.card.suit === leadingSuit).reduce((best,t) => …)`.
`reduce` with no initial value throws on an empty list, modelled by `none`. -/
def winnerB (leading : Option Suit) (table : List Play) : Option Play :=
  match table.filter (fun t => some t.card.suit = leading) with
  | [] => none
  | w :: rest =>
      some (rest.foldl (fun best t => if t.card.value > best.card.value then t else best) w)

/-- Models `this.players[pid].tricks++`. -/
def bumpTricks (ps : List Player) (pid : Nat) : List Player :=
  ps.mapIdx (fun j p => if j = pid then { p with tricks := p.tricks + 1 } else p)

/-- Variant-A `Game.resolveTrick` on the game state: the winner's
`tricks` is incremented; `dealerIndex` and `playOrder` are not touched. -/
def resolveTrickAGame (g : GameSt) : Option GameSt :=
  match winnerA g.trumpSuit g.leadingSuit g.table with
  | none => none
  | some w => some { g with players := bumpTricks g.players w.pid }

/-- Variant-B `Game.resolveTrick` on the game state: the winner's
`tricks` is incremented and `dealerIndex` is overwritten with the
winner's id (`this.dealerIndex = winning.playerId`); `playOrder` is not
recomputed. -/
def resolveTrickBGame (g : GameSt) : Option GameSt :=
  match winnerB g.leadingSuit g.table with
  | none => none
  | some w => some { g with players := bumpTricks g.players w.pid, dealerIndex := w.pid }

/-- The per-seat score delta of `finishRound` (identical in both
variants): `p.tricks >= p.bid ? p.bid*10 + (p.tricks - p.bid) : -p.bid*10`. -/
def scoreDelta (bid tricks : Nat) : Int :=
  if tricks ≥ bid then (bid : Int) * 10 + ((tricks : Int) - (bid : Int))
  else -((bid : Int) * 10)

/-- Method `Game.finishRound` (scoring part; persistence and UI are external):
each player's delta is added to its cumulative score. -/
def finishRound (g : GameSt) : GameSt :=
  { g with players := g.players.map (fun p => { p with score := p.score + scoreDelta p.bid p.tricks }) }

/-- Variant-A `Game.startRound`: `round++`, trick state cleared,
`tricks` reset, variant-A deal (which clears hands), dealer advanced by
one mod 4, new trump drawn (passed as `newTrump`). -/
def startRoundA (shuffled : List Card) (newTrump : Suit) (g : GameSt) : GameSt :=
  let ps1 := g.players.map (fun p => { p with tricks := 0 })
  let dealt := dealA ps1 shuffled
  { g with round := g.round + 1, leadingSuit := none, playOrder := [], table := [],
           players := dealt.1, dealerIndex := (g.dealerIndex + 1) % 4,
           trumpSuit := newTrump }

/-- Variant-B `Game.startRound`: `round++`, trick state cleared,
`p.hand = []; p.tricks = 0` for every seat, variant-B deal, dealer
advanced by one mod 4 (variant B has no trump). -/
def startRoundB (shuffled : List Card) (g : GameSt) : GameSt :=
  let ps1 := g.players.map (fun p => { p with hand := [], tricks := 0 })
  let dealt := dealB ps1 shuffled
  { g with round := g.round + 1, leadingSuit := none, playOrder := [], table := [],
           players := dealt.1, dealerIndex := (g.dealerIndex + 1) % 4 }

/-- Method `Game.isLegal(card)` (identical in both variants): with no leading
suit everything is legal; otherwise legal iff the human hand has no card
of the leading suit or the card follows it. -/
def isLegal (leadingSuit : Option Suit) (humanHand : List Card) (card : Card) : Bool :=
  match leadingSuit with
  | none => true
  | some s => !(humanHand.any (fun c => c.suit = s)) || (card.suit = s)

/-- Errors that can escape the load path: `JSON.parse` throwing on a
string that is not valid JSON, and a `TypeError` from property access on
`null`/`undefined`. -/
inductive JsError
  | parseThrow
  | typeError
deriving DecidableEq

/-- A JSON-like JavaScript value (what `JSON.parse` can produce, plus
`undefined` for missing properties). -/
inductive JsVal
  | null
  | undefined
  | bool (b : Bool)
  | num (n : Int)
  | str (s : String)
  | arr (xs : List JsVal)
  | obj (fields : List (String × JsVal))

/-- JS property access `v[k]` for a string key: throws on `null` and
`undefined`; on an object, the field's value or `undefined`; on numbers,
booleans, strings and arrays the keys read by `restoreHistory`
(`scores`, `dealerIndex`, `round`) are absent, hence `undefined`. -/
def JsVal.getField : JsVal → String → Except JsError JsVal
  | .null, _ => .error .typeError
  | .undefined, _ => .error .typeError
  | .obj fields, k => .ok (((fields.find? (fun f => f.1 = k)).map (fun f => f.2)).getD .undefined)
  | _, _ => .ok .undefined

/-- JS truthiness of the modelled values (`NaN` does not arise from
parsed JSON). -/
def JsVal.truthy : JsVal → Bool
  | .null => false
  | .undefined => false
  | .bool b => b
  | .num n => n ≠ 0
  | .str s => ¬ s = ""
  | .arr _ => true
  | .obj _ => true

/-- JS numeric index access `v[i]`: throws on `null`/`undefined`; an
element or `undefined` on arrays; a one-character string on strings; and
`undefined` on numbers, booleans and objects (no such numeric key). -/
def JsVal.index : JsVal → Nat → Except JsError JsVal
  | .null, _ => .error .typeError
  | .undefined, _ => .error .typeError
  | .arr xs, i => .ok ((xs.get? i).getD .undefined)
  | .str s, i => .ok (((s.toList.get? i).map (fun c => JsVal.str (String.mk [c]))).getD .undefined)
  | _, _ => .ok .undefined

/-- Models `x || 0`: the left value when truthy, else the number 0. -/
def jsOrZero (v : JsVal) : JsVal :=
  if v.truthy then v else .num 0

/-- What the `localStorage` cell can hold when `loadState` runs: absent
(`getItem` returns `null`), a string `JSON.parse` rejects, or a string
parsing to a JSON value. -/
inductive StoredCell
  | absent
  | invalidJson
  | json (v : JsVal)

/-- Function `loadState()`: `JSON.parse(localStorage.getItem(STORAGE_KEY) || '{}')`.
An absent item falls back to `'{}'`; an invalid stored string makes
`JSON.parse` throw — there is no `try`/`catch` around it. -/
def loadState : StoredCell → Except JsError JsVal
  | .absent => .ok (.obj [])
  | .invalidJson => .error .parseThrow
  | .json v => .ok v

/-- The match-level fields `restoreHistory` assigns: the four seats'
`score` fields and the game's `dealerIndex` and `round`.  They hold JS
values because `p.score = this.state.scores[i] || 0` copies whatever the
stored array held. -/
structure MatchInit where
  scores : List JsVal
  dealerIndex : JsVal
  round : JsVal

/-- Method `Game.restoreHistory` (identical in both variants): when
`this.state.scores` is truthy, each seat's score and the dealer/round
counters are taken from the stored state with `|| 0` fallbacks;
otherwise the constructor defaults (all numbers 0) are kept.  Property
access on a `null` state throws. -/
def restoreHistory (st : JsVal) : Except JsError MatchInit := do
  let scoresV ← st.getField "scores"
  if scoresV.truthy then
    let s0 ← scoresV.index 0
    let s1 ← scoresV.index 1
    let s2 ← scoresV.index 2
    let s3 ← scoresV.index 3
    let d ← st.getField "dealerIndex"
    let r ← st.getField "round"
    pure { scores := [jsOrZero s0, jsOrZero s1, jsOrZero s2, jsOrZero s3],
           dealerIndex := jsOrZero d, round := jsOrZero r }
  else
    pure { scores := [.num 0, .num 0, .num 0, .num 0],
           dealerIndex := .num 0, round := .num 0 }

/-- The load path of the `Game` constructor:
`this.state = loadState(); this.restoreHistory();`. -/
def initMatchState (cell : StoredCell) : Except JsError MatchInit := do
  let st ← loadState cell
  restoreHistory st

/-- The fresh-match defaults: all-zero scores, dealer index 0, round 0. -/
def freshMatch : MatchInit :=
  { scores := [.num 0, .num 0, .num 0, .num 0], dealerIndex := .num 0, round := .num 0 }

/-- Concrete human seat 0 as built by `new Player(0, true)`. -/
def player0 : Player := ⟨0, true, [], 0, 0, 0⟩

/-- Concrete computer seat 1 as built by `new Player(1)`. -/
def player1 : Player := ⟨1, false, [], 0, 0, 0⟩

/-- Concrete computer seat 2 as built by `new Player(2)`. -/
def player2 : Player := ⟨2, false, [], 0, 0, 0⟩

/-- Concrete computer seat 3 as built by `new Player(3)`. -/
def player3 : Player := ⟨3, false, [], 0, 0, 0⟩

/-- The four seats of the `Game` constructor. -/
def freshPlayers : List Player := [player0, player1, player2, player3]

/-- A concrete game state used by witnesses. -/
def gameEx : GameSt :=
  { players := freshPlayers, dealerIndex := 0, round := 0, trumpSuit := Suit.spade,
    leadingSuit := none, playOrder := [], table := [] }

/-- The trick used against C2: leading suit ♠ (suit of the first play),
trump ♥; seat 1 played the trump 2♥, seat 2 the leading-suit A♠ after it. -/
def trickC2 : List Play :=
  [⟨0, ⟨.spade, .r3⟩⟩, ⟨1, ⟨.heart, .r2⟩⟩, ⟨2, ⟨.spade, .A⟩⟩, ⟨3, ⟨.spade, .r4⟩⟩]

/-- C2: REFUTED on the code.  The claim says a trick containing a trump
play is always won by a trump play, for every placement order.  In the
trump-aware `resolveTrick`, the second disjunct of the `forEach` guard
(`t.card.suit === leadingSuit && winning.card.suit !== leadingSuit && !isTrump`)
does not check that the running winner is trump, so a leading-suit card
placed after a trump card steals the trick: with trump ♥ and lead ♠, the
table [3♠, 2♥, A♠, 4♠] contains the trump 2♥ yet is won by the non-trump
A♠.  (The same trick with the trump placed last is won by the trump, so
the resolution is order-dependent.) -/
theorem C2_trumpPlayCanLoseTrick :
    (∃ t ∈ trickC2, t.card.suit = Suit.heart) ∧
    winnerA Suit.heart (some Suit.spade) trickC2 = some ⟨2, ⟨Suit.spade, Rank.A⟩⟩ ∧
    Suit.spade ≠ Suit.heart ∧
    winnerA Suit.heart (some Suit.spade)
      [⟨0, ⟨.spade, .r3⟩⟩, ⟨2, ⟨.spade, .A⟩⟩, ⟨3, ⟨.spade, .r4⟩⟩, ⟨1, ⟨.heart, .r2⟩⟩]
      = some ⟨1, ⟨Suit.heart, Rank.r2⟩⟩ := by
  decide

/-- C3: at round scoring each seat's delta is `bid*10 + (tricksWon - bid)`
when the bid is met and `-bid*10` otherwise; the quoted examples hold and
`finishRound` adds exactly the delta to each seat's cumulative score. -/
theorem C3_finishRound_scoring (g : GameSt) (b t : Nat) :
    (t ≥ b → scoreDelta b t = (b : Int) * 10 + ((t : Int) - (b : Int))) ∧
    (t < b → scoreDelta b t = -((b : Int) * 10)) ∧
    scoreDelta 5 7 = 52 ∧ scoreDelta 5 3 = -50 ∧ scoreDelta 0 0 = 0 ∧
    (finishRound g).players.map (fun p => p.score) =
      g.players.map (fun p => p.score + scoreDelta p.bid p.tricks) := by
  refine ⟨fun h => by simp [scoreDelta, h], fun h => ?_, by decide, by decide, by decide, ?_⟩
  · simp [scoreDelta, Nat.not_le.mpr h]
  · simp [finishRound, List.map_map]

/-- Witness for C3 at concrete inputs: bid 5 with 7 tricks (bid met) and
bid 5 with 3 tricks (bid missed). -/
theorem C3_finishRound_scoring_witness :
    scoreDelta 5 7 = (5 : Int) * 10 + ((7 : Int) - (5 : Int)) ∧
    scoreDelta 5 3 = -((5 : Int) * 10) :=
  ⟨(C3_finishRound_scoring gameEx 5 7).1 (by decide),
   (C3_finishRound_scoring gameEx 5 3).2.1 (by decide)⟩

/-- The hand used against C4: neither a ♠ (lead) nor a ♦ (trump) card. -/
def handC4 : List Card := [⟨.heart, .r5⟩, ⟨.club, .r7⟩]

/-- The player used against C4 (`tricks < bid`, so it wants to win). -/
def playerC4 : Player := ⟨1, false, handC4, 3, 0, 0⟩

/-- C4: REFUTED on the code.  In the trump-aware build,
`candidates = hand.filter(c => c.suit === trumpSuit) || hand` never falls
back to the whole hand because an empty array is truthy in JS.  With a
hand holding neither leading-suit nor trump cards, the candidate lists
are both empty, `candidates[0]` is `undefined`, no card is removed from
the hand, and `undefined` is returned — contradicting the claim that the
whole hand becomes the candidate set and a card is removed and returned.
The lead-suit-only build's fallback (`if (candidates.length === 0)
candidates = this.hand`) does work: same hand, lead ♠, it returns the
highest card 7♣ and shrinks the hand by one. -/
theorem C4_trumpAwareFallbackBroken :
    handC4.filter (fun c => some c.suit = some Suit.spade) = [] ∧
    handC4.filter (fun c => c.suit = Suit.diamond) = [] ∧
    (playerC4.playCardA (some Suit.spade) Suit.diamond).1 = none ∧
    ((playerC4.playCardA (some Suit.spade) Suit.diamond).2).hand = handC4 ∧
    (playerC4.playCardB (some Suit.spade)).1 = some ⟨Suit.club, Rank.r7⟩ ∧
    ((playerC4.playCardB (some Suit.spade)).2).hand = [⟨Suit.heart, Rank.r5⟩] := by
  decide

/-- C7, counterexample: loading is not total.  A stored string that is
not valid JSON makes `JSON.parse` throw — `loadState` has no
`try`/`catch` — and a stored `"null"` parses to `null`, on which
`restoreHistory`'s `this.state.scores` access throws a `TypeError`. -/
theorem C7_malformedStateThrows :
    initMatchState .invalidJson = .error .parseThrow ∧
    initMatchState (.json .null) = .error .typeError :=
  ⟨rfl, rfl⟩

/-- C7, amended: an absent stored value falls back to `'{}'` and yields
the fresh-match defaults (all-zero scores, dealer 0, round 0), and every
wrong-shaped parsed value other than `null` whose `scores` property is
absent or falsy — numbers, booleans, strings, arrays, and objects with a
missing or falsy `scores` field — also yields the defaults.  (The
property access `v.getField "scores"` succeeds on exactly the non-`null`
values `JSON.parse` can produce, so the two hypotheses cover that whole
class.) -/
theorem C7_absentStateDefaults :
    initMatchState .absent = .ok freshMatch ∧
    ∀ v sv : JsVal, v.getField "scores" = .ok sv → sv.truthy = false →
      initMatchState (.json v) = .ok freshMatch := by
  refine ⟨rfl, ?_⟩
  intro v sv h1 h2
  simp [initMatchState, loadState, restoreHistory, h1, h2, freshMatch,
    Bind.bind, Except.bind, Pure.pure, Except.pure]

/-- Witness for C7's amended theorem: the absent cell, and the
wrong-shaped stored number `5` (whose `scores` property is `undefined`,
hence falsy). -/
theorem C7_absentStateDefaults_witness :
    initMatchState .absent = .ok freshMatch ∧
    initMatchState (.json (.num 5)) = .ok freshMatch :=
  ⟨C7_absentStateDefaults.1,
   C7_absentStateDefaults.2 (.num 5) .undefined rfl rfl⟩

/-- C9: with a leading suit established, `isLegal` accepts a card iff the
human hand holds no card of the leading suit or the card follows it;
with no leading suit it accepts every card. -/
theorem C9_isLegal (s : Suit) (hand : List Card) (card : Card) :
    (isLegal (some s) hand card = true ↔ ((∀ c ∈ hand, c.suit ≠ s) ∨ card.suit = s)) ∧
    isLegal none hand card = true := by
  refine ⟨?_, rfl⟩
  simp [isLegal]

/-- A projection untouched by the hand-only update of `dealOnce` is
preserved across one dealing pass. -/
theorem dealOnce_map_proj {α : Type} (f : Player → α)
    (hf : ∀ (p : Player) (h : List Card), f { p with hand := h } = f p) :
    ∀ (ps : List Player) (cs : List Card), (dealOnce ps cs).1.map f = ps.map f := by
  intro ps
  induction ps with
  | nil => intro cs; rfl
  | cons p ps ih => intro cs; simp [dealOnce, hf, ih]

/-- A projection untouched by the hand-only update of `dealOnce` is
preserved across the whole dealing loop. -/
theorem dealLoop_map_proj {α : Type} (f : Player → α)
    (hf : ∀ (p : Player) (h : List Card), f { p with hand := h } = f p) :
    ∀ (n : Nat) (ps : List Player) (cs : List Card),
      (dealLoop n ps cs).1.map f = ps.map f := by
  intro n
  induction n with
  | zero => intro ps cs; rfl
  | succ n ih =>
      intro ps cs
      rw [dealLoop]
      rw [ih]
      exact dealOnce_map_proj f hf ps cs

/-- C5, amended: the seat order of every trick of a round is the one
`determineTurnOrder` computed from the dealer when the human bid was
submitted.  Neither variant's `resolveTrick` (nor the next `playTrick`)
recomputes `playOrder`: the trump-aware variant leaves both `playOrder`
and `dealerIndex` unchanged, and the lead-suit variant stores the
winner's id in `dealerIndex` only — the next trick is still played in
the old order, contrary to the claim that it starts from the winner. -/
theorem C5_turnOrderNeverReseeded (g g' : GameSt) :
    (determineTurnOrder g).playOrder =
      [(g.dealerIndex + 1) % 4, (g.dealerIndex + 2) % 4,
       (g.dealerIndex + 3) % 4, (g.dealerIndex + 4) % 4] ∧
    (resolveTrickAGame g = some g' →
      (playTrickReset g').playOrder = g.playOrder ∧ g'.dealerIndex = g.dealerIndex) ∧
    (resolveTrickBGame g = some g' →
      (playTrickReset g').playOrder = g.playOrder ∧
      ∃ w, winnerB g.leadingSuit g.table = some w ∧ g'.dealerIndex = w.pid) := by
  refine ⟨rfl, ?_, ?_⟩
  · intro h
    rcases hw : winnerA g.trumpSuit g.leadingSuit g.table with _ | w
    · rw [resolveTrickAGame, hw] at h; exact absurd h (by simp)
    · rw [resolveTrickAGame, hw] at h
      cases h
      exact ⟨rfl, rfl⟩
  · intro h
    rcases hw : winnerB g.leadingSuit g.table with _ | w
    · rw [resolveTrickBGame, hw] at h; exact absurd h (by simp)
    · rw [resolveTrickBGame, hw] at h
      cases h
      exact ⟨rfl, w, rfl, rfl⟩

/-- The state used against C5/C6: a round whose dealer is seat 0 (order
[1,2,3,0]) with a completed all-♣ trick on the table won by seat 3's K♣. -/
def gameC5 : GameSt :=
  { players := freshPlayers, dealerIndex := 0, round := 1, trumpSuit := Suit.spade,
    leadingSuit := some Suit.club, playOrder := [1, 2, 3, 0],
    table := [⟨1, ⟨.club, .r9⟩⟩, ⟨2, ⟨.club, .r5⟩⟩, ⟨3, ⟨.club, .K⟩⟩, ⟨0, ⟨.club, .r2⟩⟩] }

/-- The state `resolveTrickBGame` produces from `gameC5`: seat 3 wins,
its `tricks` is bumped, `dealerIndex` becomes 3, `playOrder` untouched. -/
def gameC5resB : GameSt :=
  { gameC5 with players := bumpTricks gameC5.players 3, dealerIndex := 3 }

/-- C5, counterexample: in the lead-suit variant, seat 3 wins the trick
of `gameC5`, yet the order for the next trick is still [1,2,3,0] — not
the winner-seeded [3,0,1,2] the claim requires. -/
theorem C5_nextTrickOrderNotFromWinner :
    resolveTrickBGame gameC5 = some gameC5resB ∧
    gameC5resB.dealerIndex = 3 ∧
    (playTrickReset gameC5resB).playOrder = [1, 2, 3, 0] ∧
    [1, 2, 3, 0] ≠ [3, 0, 1, 2] := by
  decide

/-- Witness for C5 at `gameC5`: applying the amended theorem to the
concrete resolved trick. -/
theorem C5_turnOrderNeverReseeded_witness :
    (playTrickReset gameC5resB).playOrder = gameC5.playOrder ∧
    ∃ w, winnerB gameC5.leadingSuit gameC5.table = some w ∧ gameC5resB.dealerIndex = w.pid :=
  (C5_turnOrderNeverReseeded gameC5 gameC5resB).2.2 (by decide)

/-- Unfolding equation: the players produced by variant-A `startRound`
are the variant-A deal over the tricks-reset seats. -/
theorem startRoundA_players_eq (sh : List Card) (tr : Suit) (g : GameSt) :
    (startRoundA sh tr g).players
      = (dealA (g.players.map fun p => { p with tricks := 0 }) sh).1 := by
  simp only [startRoundA]

/-- Unfolding equation: the players produced by variant-B `startRound`
are the variant-B deal over the hand-cleared, tricks-reset seats. -/
theorem startRoundB_players_eq (sh : List Card) (g : GameSt) :
    (startRoundB sh g).players
      = (dealB (g.players.map fun p => { p with hand := [], tricks := 0 }) sh).1 := by
  simp only [startRoundB]

/-- C6, amended: both variants' `startRound` resets every seat's
`tricksWon` to 0, leaves every cumulative score unchanged, increments the
round number by one and advances the dealer by one mod 4 *from the
current value of `dealerIndex`*; `finishRound` touches only scores.  In
the trump-aware variant the current value is the previous round's
dealer, but in the lead-suit variant `resolveTrick` has overwritten
`dealerIndex` with each trick's winner, so the new dealer is (winner of
the previous round's last trick + 1) mod 4 — see the counterexample. -/
theorem C6_roundTransition (sh : List Card) (tr : Suit) (g : GameSt) :
    (startRoundA sh tr g).players.map Player.tricks = g.players.map (fun _ => 0) ∧
    (startRoundA sh tr g).players.map Player.score = g.players.map Player.score ∧
    (startRoundA sh tr g).round = g.round + 1 ∧
    (startRoundA sh tr g).dealerIndex = (g.dealerIndex + 1) % 4 ∧
    (startRoundB sh g).players.map Player.tricks = g.players.map (fun _ => 0) ∧
    (startRoundB sh g).players.map Player.score = g.players.map Player.score ∧
    (startRoundB sh g).round = g.round + 1 ∧
    (startRoundB sh g).dealerIndex = (g.dealerIndex + 1) % 4 ∧
    (finishRound g).dealerIndex = g.dealerIndex ∧
    (finishRound g).round = g.round ∧
    (finishRound g).players.map Player.tricks = g.players.map Player.tricks := by
  refine ⟨?_, ?_, rfl, rfl, ?_, ?_, rfl, rfl, rfl, rfl, ?_⟩
  · rw [startRoundA_players_eq, dealA, dealLoop_map_proj Player.tricks (fun _ _ => rfl),
      List.map_map, List.map_map]
    rfl
  · rw [startRoundA_players_eq, dealA, dealLoop_map_proj Player.score (fun _ _ => rfl),
      List.map_map, List.map_map]
    rfl
  · rw [startRoundB_players_eq, dealB, dealLoop_map_proj Player.tricks (fun _ _ => rfl),
      List.map_map]
    rfl
  · rw [startRoundB_players_eq, dealB, dealLoop_map_proj Player.score (fun _ _ => rfl),
      List.map_map]
    rfl
  · simp [finishRound, List.map_map]

/-- The state used against C6: a round that started with dealer 1, with
its last trick (all ♣, won by seat 3's K♣) completed on the table. -/
def gameC6 : GameSt :=
  { players := freshPlayers, dealerIndex := 1, round := 1, trumpSuit := Suit.spade,
    leadingSuit := some Suit.club, playOrder := [2, 3, 0, 1],
    table := [⟨1, ⟨.club, .r9⟩⟩, ⟨2, ⟨.club, .r5⟩⟩, ⟨3, ⟨.club, .K⟩⟩, ⟨0, ⟨.club, .r2⟩⟩] }

/-- C6, counterexample: in the lead-suit variant, resolving `gameC6`'s
last trick stores the winner (seat 3) in `dealerIndex`, so after
`finishRound` the next `startRound` makes the dealer (3+1)%4 = 0 — not
(previous round's dealer 1 + 1)%4 = 2 as the claim requires. -/
theorem C6_dealerAdvanceClobberedByWinner :
    (resolveTrickBGame gameC6).map
        (fun g1 => (startRoundB fullDeck (finishRound g1)).dealerIndex) = some 0 ∧
    (gameC6.dealerIndex + 1) % 4 = 2 ∧
    (0 : Nat) ≠ 2 := by
  decide

/-- Claim-side HCP weights: Ace 4, King 3, Queen 2, Jack 1, others 0. -/
def hcpPoints (c : Card) : Nat :=
  match c.rank with
  | .A => 4 | .K => 3 | .Q => 2 | .J => 1 | _ => 0

/-- Claim-side HCP: the weights summed over the hand. -/
def hcpSpec (hand : List Card) : Nat :=
  (hand.map hcpPoints).sum

/-- Claim-side suit length: the number of cards of suit `s` in the hand. -/
def suitLengthSpec (hand : List Card) (s : Suit) : Nat :=
  hand.countP (fun c => c.suit = s)

/-- Claim-side length bonus: the sum over suits of
`max(0, cardsInSuit - 4)`, as integers. -/
def lengthBonusSpec (hand : List Card) : Int :=
  (allSuits.map (fun s => max 0 ((suitLengthSpec hand s : Int) - 4))).sum

/-- A left fold whose step adds a per-element amount computes the
starting accumulator plus the sum of those amounts. -/
theorem foldl_add_of_step (f : Nat → Card → Nat) (g : Card → Nat)
    (hf : ∀ a c, f a c = a + g c) :
    ∀ (l : List Card) (a : Nat), l.foldl f a = a + (l.map g).sum := by
  intro l
  induction l with
  | nil => intro a; simp
  | cons c cs ih =>
      intro a
      rw [List.foldl_cons, ih, hf]
      simp
      omega

/-- The source HCP fold equals the claim-side HCP sum. -/
theorem hcpReduce_eq_spec (hand : List Card) : hcpReduce hand = hcpSpec hand := by
  have hstep : ∀ (a : Nat) (c : Card),
      (if c.rank = Rank.A then a + 4
       else if c.rank = Rank.K then a + 3
       else if c.rank = Rank.Q then a + 2
       else if c.rank = Rank.J then a + 1
       else a) = a + hcpPoints c := by
    intro a c
    rcases c with ⟨s, r⟩
    cases r <;> simp [hcpPoints]
  have h := foldl_add_of_step _ hcpPoints hstep hand 0
  simpa [hcpReduce, hcpSpec] using h

/-- The source `suitCounts` object maps each suit to that suit's count
in the hand. -/
theorem suitCounts_eq_countP (hand : List Card) (s : Suit) :
    suitCounts hand s = hand.countP (fun c => c.suit = s) := by
  suffices h : ∀ (l : List Card) (m : Suit → Nat),
      (l.foldl (fun m c => fun t => if t = c.suit then m t + 1 else m t) m) s
        = m s + l.countP (fun c => c.suit = s) by
    simpa [suitCounts] using h hand (fun _ => 0)
  intro l
  induction l with
  | nil => intro m; simp
  | cons c cs ih =>
      intro m
      rw [List.foldl_cons, ih, List.countP_cons]
      by_cases hsc : c.suit = s
      · simp [hsc]
        omega
      · have : ¬ s = c.suit := fun h => hsc h.symm
        simp [hsc, this]

/-- The source length bonus, cast to integers, is the claim-side
`max(0, count - 4)` sum. -/
theorem lengthBonus_cast (hand : List Card) :
    (lengthBonus hand : Int) = lengthBonusSpec hand := by
  have e1 := suitCounts_eq_countP hand Suit.spade
  have e2 := suitCounts_eq_countP hand Suit.heart
  have e3 := suitCounts_eq_countP hand Suit.diamond
  have e4 := suitCounts_eq_countP hand Suit.club
  simp only [lengthBonus, lengthBonusSpec, suitLengthSpec, allSuits,
    List.foldl_cons, List.foldl_nil, List.map_cons, List.map_nil,
    List.sum_cons, List.sum_nil, e1, e2, e3, e4]
  omega

/-- C8: `computeBid` is deterministic, always at most 13 (and trivially
at least 0 on naturals), and computes exactly `min(13, floor(HCP/2))` in
simple mode and `min(13, floor(HCP/2) + Σ_suits max(0, cardsInSuit-4))`
in advanced mode. -/
theorem C8_computeBid (adv : Bool) (hand : List Card) :
    computeBid adv hand = computeBid adv hand ∧
    computeBid adv hand ≤ 13 ∧
    (computeBid false hand : Int) = min 13 ((hcpSpec hand : Int) / 2) ∧
    (computeBid true hand : Int)
      = min 13 ((hcpSpec hand : Int) / 2 + lengthBonusSpec hand) := by
  refine ⟨rfl, ?_, ?_, ?_⟩
  · cases adv <;> simp [computeBid]
  · simp only [computeBid, Bool.not_false, if_pos, hcpReduce_eq_spec]
    omega
  · simp only [computeBid, Bool.not_true, hcpReduce_eq_spec]
    have h := lengthBonus_cast hand
    simp only [Bool.false_eq_true, if_false]
    omega

/-- Folding a sequence of `(pid, card)` plays through `placeCard`,
starting from some game state: the play sequence of one trick. -/
def foldPlace (g : GameSt) (plays : List (Nat × Card)) : GameSt :=
  plays.foldl (fun h pc => placeCard h pc.1 pc.2) g

/-- Once a leading suit is set, `placeCard` keeps it and only appends to
the table; folded over any further plays the leading suit is unchanged
and the table grows by exactly those plays. -/
theorem foldPlace_after_lead (plays : List (Nat × Card)) :
    ∀ (g : GameSt) (s : Suit), g.leadingSuit = some s →
      (foldPlace g plays).leadingSuit = some s ∧
      (foldPlace g plays).table = g.table ++ plays.map (fun pc => Play.mk pc.1 pc.2) := by
  induction plays with
  | nil => intro g s hl; simp [foldPlace, hl]
  | cons pc rest ih =>
      intro g s hl
      have hstep : placeCard g pc.1 pc.2
          = { g with table := g.table ++ [Play.mk pc.1 pc.2] } := by
        simp [placeCard, hl]
      have h2 : (placeCard g pc.1 pc.2).leadingSuit = some s := by rw [hstep]; exact hl
      obtain ⟨ha, hb⟩ := ih (placeCard g pc.1 pc.2) s h2
      refine ⟨ha, ?_⟩
      rw [foldPlace] at hb ⊢
      simp only [List.foldl_cons]
      rw [hb, hstep]
      simp

/-- C10: for every trick built through `placeCard`/`placeOnTable` from a
fresh trick state (empty table, no leading suit), the leading suit is
the first play's suit and that first play stays on the table, so the
lead-suit filter of the lead-suit-only `resolveTrick` is never empty and
its `reduce` never runs on an empty list, and the trump-aware
`resolveTrick`'s initial `table[0]` exists: both resolutions produce a
winner. -/
theorem C10_resolutionAlwaysFindsWinner (g0 : GameSt) (plays : List (Nat × Card))
    (htable : g0.table = []) (hlead : g0.leadingSuit = none) (hne : plays ≠ []) :
    (foldPlace g0 plays).leadingSuit
        = some ((plays.head hne).2).suit ∧
    (foldPlace g0 plays).table.filter
        (fun t => some t.card.suit = (foldPlace g0 plays).leadingSuit) ≠ [] ∧
    (winnerB (foldPlace g0 plays).leadingSuit (foldPlace g0 plays).table).isSome ∧
    (resolveTrickBGame (foldPlace g0 plays)).isSome ∧
    (winnerA (foldPlace g0 plays).trumpSuit (foldPlace g0 plays).leadingSuit
        (foldPlace g0 plays).table).isSome ∧
    (resolveTrickAGame (foldPlace g0 plays)).isSome := by
  rcases plays with _ | ⟨pc, rest⟩
  · exact absurd rfl hne
  · have hstep : placeCard g0 pc.1 pc.2
        = { g0 with leadingSuit := some pc.2.suit,
                    table := g0.table ++ [Play.mk pc.1 pc.2] } := by
      simp [placeCard, hlead]
    have h2 : (placeCard g0 pc.1 pc.2).leadingSuit = some pc.2.suit := by
      rw [hstep]
    obtain ⟨ha, hb⟩ := foldPlace_after_lead rest (placeCard g0 pc.1 pc.2) pc.2.suit h2
    have hfold : foldPlace g0 (pc :: rest) = foldPlace (placeCard g0 pc.1 pc.2) rest := by
      rw [foldPlace, foldPlace, List.foldl_cons]
    have htab : (foldPlace g0 (pc :: rest)).table
        = Play.mk pc.1 pc.2 :: rest.map (fun q => Play.mk q.1 q.2) := by
      rw [hfold, hb, hstep, htable]
      simp
    have hld : (foldPlace g0 (pc :: rest)).leadingSuit = some pc.2.suit := by
      rw [hfold]; exact ha
    have hfil : (foldPlace g0 (pc :: rest)).table.filter
        (fun t => some t.card.suit = (foldPlace g0 (pc :: rest)).leadingSuit)
        = Play.mk pc.1 pc.2 :: (rest.map (fun q => Play.mk q.1 q.2)).filter
            (fun t => some t.card.suit = (foldPlace g0 (pc :: rest)).leadingSuit) := by
      rw [htab, hld]
      simp
    have hBsome : (winnerB (foldPlace g0 (pc :: rest)).leadingSuit
        (foldPlace g0 (pc :: rest)).table).isSome := by
      rw [winnerB, hfil]
      simp
    refine ⟨hld, ?_, hBsome, ?_, ?_, ?_⟩
    · rw [hfil]; simp
    · rw [resolveTrickBGame]
      rcases hw : winnerB (foldPlace g0 (pc :: rest)).leadingSuit
          (foldPlace g0 (pc :: rest)).table with _ | w
      · rw [hw] at hBsome; simp at hBsome
      · simp
    · rw [winnerA.eq_def, htab]
      simp
    · rw [resolveTrickAGame]
      rcases hw : winnerA (foldPlace g0 (pc :: rest)).trumpSuit
          (foldPlace g0 (pc :: rest)).leadingSuit (foldPlace g0 (pc :: rest)).table with _ | w
      · rw [winnerA.eq_def, htab] at hw; simp at hw
      · simp

/-- The four plays used by the C10 witness: the all-♣ trick of `gameC5`. -/
def playsC10 : List (Nat × Card) :=
  [(1, ⟨.club, .r9⟩), (2, ⟨.club, .r5⟩), (3, ⟨.club, .K⟩), (0, ⟨.club, .r2⟩)]

/-- Witness for C10: the concrete four-play trick placed on the fresh
state `gameEx`. -/
theorem C10_resolutionAlwaysFindsWinner_witness :
    (foldPlace gameEx playsC10).leadingSuit
        = some ((playsC10.head (by decide)).2).suit ∧
    (foldPlace gameEx playsC10).table.filter
        (fun t => some t.card.suit = (foldPlace gameEx playsC10).leadingSuit) ≠ [] ∧
    (winnerB (foldPlace gameEx playsC10).leadingSuit (foldPlace gameEx playsC10).table).isSome ∧
    (resolveTrickBGame (foldPlace gameEx playsC10)).isSome ∧
    (winnerA (foldPlace gameEx playsC10).trumpSuit (foldPlace gameEx playsC10).leadingSuit
        (foldPlace gameEx playsC10).table).isSome ∧
    (resolveTrickAGame (foldPlace gameEx playsC10)).isSome :=
  C10_resolutionAlwaysFindsWinner gameEx playsC10 rfl rfl (by decide)

/-- The multiset of all cards currently held across a list of seats. -/
def handsM (ps : List Player) : Multiset Card :=
  (ps.map (fun p => (p.hand : Multiset Card))).sum

/-- A list is its own front (`dropLast`) plus its popped last element. -/
theorem dropLast_append_getLastToList (cs : List Card) :
    cs.dropLast ++ cs.getLast?.toList = cs := by
  rcases eq_or_ne cs [] with h | h
  · subst h; rfl
  · rw [List.getLast?_eq_getLast cs h]
    simp [List.dropLast_append_getLast h]

/-- Unfolding the multiset of hands over a head seat. -/
theorem handsM_cons (p : Player) (ps : List Player) :
    handsM (p :: ps) = (p.hand : Multiset Card) + handsM ps := by
  simp [handsM]

/-- One dealing pass conserves cards: hands plus remaining deck before
equals hands plus remaining deck after. -/
theorem dealOnce_conserve (ps : List Player) :
    ∀ cs : List Card,
      handsM (dealOnce ps cs).1 + ((dealOnce ps cs).2 : Multiset Card)
        = handsM ps + (cs : Multiset Card) := by
  induction ps with
  | nil => intro cs; rfl
  | cons p ps ih =>
      intro cs
      have key : ((cs.getLast?.toList : List Card) : Multiset Card)
          + (cs.dropLast : Multiset Card) = (cs : Multiset Card) :=
        calc ((cs.getLast?.toList : List Card) : Multiset Card) + (cs.dropLast : Multiset Card)
            = (cs.dropLast : Multiset Card) + ((cs.getLast?.toList : List Card) : Multiset Card) :=
              add_comm _ _
          _ = ((cs.dropLast ++ cs.getLast?.toList : List Card) : Multiset Card) :=
              (Multiset.coe_add _ _).symm
          _ = (cs : Multiset Card) := by rw [dropLast_append_getLastToList]
      have hfst : (dealOnce (p :: ps) cs).1
          = { p with hand := p.hand ++ cs.getLast?.toList } :: (dealOnce ps cs.dropLast).1 := rfl
      have hsnd : (dealOnce (p :: ps) cs).2 = (dealOnce ps cs.dropLast).2 := rfl
      rw [hfst, hsnd, handsM_cons, handsM_cons]
      rw [add_assoc, ih cs.dropLast]
      rw [show ((p.hand ++ cs.getLast?.toList : List Card) : Multiset Card)
            = (p.hand : Multiset Card) + ((cs.getLast?.toList : List Card) : Multiset Card)
          from Multiset.coe_add _ _]
      rw [← key]
      abel

/-- The dealing loop conserves cards across all its iterations. -/
theorem dealLoop_conserve (n : Nat) :
    ∀ (ps : List Player) (cs : List Card),
      handsM (dealLoop n ps cs).1 + ((dealLoop n ps cs).2 : Multiset Card)
        = handsM ps + (cs : Multiset Card) := by
  induction n with
  | zero => intro ps cs; rfl
  | succ n ih =>
      intro ps cs
      rw [dealLoop]
      exact (ih _ _).trans (dealOnce_conserve ps cs)

/-- One dealing pass with enough cards left gives every hand exactly one
more card and shortens the deck by the number of seats. -/
theorem dealOnce_lengths (ps : List Player) :
    ∀ cs : List Card, ps.length ≤ cs.length →
      ((dealOnce ps cs).1.map (fun p => p.hand.length)
          = ps.map (fun p => p.hand.length + 1)) ∧
      (dealOnce ps cs).2.length = cs.length - ps.length := by
  induction ps with
  | nil => intro cs h; exact ⟨rfl, by simp [dealOnce]⟩
  | cons p ps ih =>
      intro cs h
      have hcs : cs ≠ [] := by
        intro hh
        rw [hh] at h
        simp at h
      have h1 : cs.getLast?.toList.length = 1 := by
        rw [List.getLast?_eq_getLast cs hcs]
        rfl
      have h2 : cs.dropLast.length = cs.length - 1 := List.length_dropLast cs
      have h3 : ps.length ≤ cs.dropLast.length := by
        rw [h2]
        simp only [List.length_cons] at h
        omega
      obtain ⟨ihm, ihl⟩ := ih cs.dropLast h3
      constructor
      · simp only [dealOnce, List.map_cons, ihm, List.length_append, h1]
      · simp only [dealOnce, ihl, h2, List.length_cons]
        omega

/-- Iterating the dealing loop `n` times with enough cards gives every
hand exactly `n` more cards and shortens the deck by `n` seats' worth. -/
theorem dealLoop_lengths (n : Nat) :
    ∀ (ps : List Player) (cs : List Card), n * ps.length ≤ cs.length →
      ((dealLoop n ps cs).1.map (fun p => p.hand.length)
          = ps.map (fun p => p.hand.length + n)) ∧
      (dealLoop n ps cs).2.length = cs.length - n * ps.length := by
  induction n with
  | zero => intro ps cs h; simp [dealLoop]
  | succ n ih =>
      intro ps cs h
      rw [Nat.succ_mul] at h
      have hle : ps.length ≤ cs.length := by omega
      obtain ⟨m1, l1⟩ := dealOnce_lengths ps cs hle
      have hlen : (dealOnce ps cs).1.length = ps.length := by
        have := congrArg List.length m1
        simpa using this
      have h2 : n * (dealOnce ps cs).1.length ≤ (dealOnce ps cs).2.length := by
        rw [hlen, l1]
        omega
      obtain ⟨im, il⟩ := ih (dealOnce ps cs).1 (dealOnce ps cs).2 h2
      have hmaps := congrArg (List.map (fun k => k + n)) m1
      rw [List.map_map, List.map_map] at hmaps
      constructor
      · rw [dealLoop, im]
        calc List.map (fun p => p.hand.length + n) (dealOnce ps cs).1
            = List.map ((fun k => k + n) ∘ fun p : Player => p.hand.length)
                (dealOnce ps cs).1 := rfl
          _ = List.map ((fun k => k + n) ∘ fun p : Player => p.hand.length + 1) ps := hmaps
          _ = List.map (fun p : Player => p.hand.length + (n + 1)) ps := by
              have hfun : ((fun k => k + n) ∘ fun p : Player => p.hand.length + 1)
                  = fun p : Player => p.hand.length + (n + 1) := by
                funext p
                simp only [Function.comp]
                omega
              rw [hfun]
      · rw [dealLoop, il, l1, hlen, Nat.succ_mul]
        omega

/-- All cards held across seats, as the flattened list of the hands. -/
theorem handsM_eq_flatten (ps : List Player) :
    handsM ps = (((ps.map Player.hand).flatten : List Card) : Multiset Card) := by
  induction ps with
  | nil => rfl
  | cons p ps ih =>
      simp only [handsM, List.map_cons, List.sum_cons, List.flatten_cons,
        ← Multiset.coe_add] at *
      rw [ih]

/-- The post-condition C1 claims of a deal: each of the four hands has
exactly 13 cards, the hands are pairwise disjoint, together they are a
permutation of the full 52-card deck (one card per (suit, rank) pair),
and the remaining deck is empty. -/
def dealPost (result : List Player × List Card) : Prop :=
  result.1.map (fun p => p.hand.length) = [13, 13, 13, 13] ∧
  List.Pairwise List.Disjoint (result.1.map Player.hand) ∧
  List.Perm (result.1.map Player.hand).flatten fullDeck ∧
  result.2 = []

/-- The deck constructor really builds 52 distinct cards. -/
theorem fullDeck_length : fullDeck.length = 52 := rfl

/-- No two cards of the constructed deck are equal. -/
theorem fullDeck_nodup : fullDeck.Nodup := by decide

/-- Core dealing theorem: 13 loop iterations over four seats with empty
hands and any permutation of the 52-card deck satisfy C1's
post-condition. -/
theorem dealLoop13_post (p0 p1 p2 p3 : Player) (cs : List Card)
    (hperm : List.Perm cs fullDeck)
    (h0 : p0.hand = []) (h1 : p1.hand = []) (h2 : p2.hand = []) (h3 : p3.hand = []) :
    dealPost (dealLoop 13 [p0, p1, p2, p3] cs) := by
  have hcs52 : cs.length = 52 := by rw [hperm.length_eq]; rfl
  have hlen : 13 * ([p0, p1, p2, p3] : List Player).length ≤ cs.length := by
    simp [hcs52]
  obtain ⟨hm, hl⟩ := dealLoop_lengths 13 [p0, p1, p2, p3] cs hlen
  have lens : (dealLoop 13 [p0, p1, p2, p3] cs).1.map (fun p => p.hand.length)
      = [13, 13, 13, 13] := by
    rw [hm]
    simp [h0, h1, h2, h3]
  have hdeck : (dealLoop 13 [p0, p1, p2, p3] cs).2 = [] := by
    rw [← List.length_eq_zero]
    rw [hl, hcs52]
    rfl
  have hcons := dealLoop_conserve 13 [p0, p1, p2, p3] cs
  rw [hdeck] at hcons
  have hM : handsM (dealLoop 13 [p0, p1, p2, p3] cs).1 = (cs : Multiset Card) := by
    have hzero : handsM [p0, p1, p2, p3] = 0 := by
      simp [handsM, h0, h1, h2, h3]
    simpa [hzero] using hcons
  have hflat : List.Perm ((dealLoop 13 [p0, p1, p2, p3] cs).1.map Player.hand).flatten
      fullDeck := by
    rw [handsM_eq_flatten] at hM
    exact Multiset.coe_eq_coe.mp (hM.trans (Multiset.coe_eq_coe.mpr hperm))
  have hnd : ((dealLoop 13 [p0, p1, p2, p3] cs).1.map Player.hand).flatten.Nodup :=
    hflat.nodup_iff.mpr fullDeck_nodup
  exact ⟨lens, (List.nodup_flatten.mp hnd).2, hflat, hdeck⟩

/-- C1: for every 4-seat array and every shuffle outcome (any permutation
of the 52-card deck), the trump-aware variant's `deal` — which clears
hands itself — satisfies the post-condition unconditionally, and the
lead-suit variant's `deal` satisfies it whenever the seats' hands start
empty, which its only caller (`startRound`, which assigns `p.hand = []`
to every seat just before dealing) guarantees. -/
theorem C1_dealPost (cs : List Card) (hperm : List.Perm cs fullDeck)
    (q0 q1 q2 q3 p0 p1 p2 p3 : Player)
    (h0 : p0.hand = []) (h1 : p1.hand = []) (h2 : p2.hand = []) (h3 : p3.hand = []) :
    dealPost (dealA [q0, q1, q2, q3] cs) ∧ dealPost (dealB [p0, p1, p2, p3] cs) := by
  constructor
  · rw [dealA]
    simp only [List.map_cons, List.map_nil]
    exact dealLoop13_post _ _ _ _ cs hperm rfl rfl rfl rfl
  · rw [dealB]
    exact dealLoop13_post p0 p1 p2 p3 cs hperm h0 h1 h2 h3

/-- Witness for C1: the unshuffled full deck dealt to the four freshly
constructed seats. -/
theorem C1_dealPost_witness :
    dealPost (dealA [player0, player1, player2, player3] fullDeck) ∧
    dealPost (dealB [player0, player1, player2, player3] fullDeck) :=
  C1_dealPost fullDeck (List.Perm.refl fullDeck) player0 player1 player2 player3
    player0 player1 player2 player3 rfl rfl rfl rfl
